import Mathlib

/-!
Shallow embedding of the ellipses pattern-expansion package
(`ellipses/ellipses.go`) and verification of its specification.

Go strings are modelled as `List Char`; Go `uint64` values as `Nat` with an
explicit `% 2 ^ 64` where wraparound matters; fallible Go functions
(`(T, error)` returns) become `Except`/`Option`, or a pair with an
`Option GoErr` component when the code returns a partial result next to an
error.  The Go struct field names `Prefix`/`Suffix`/`Seq` are rendered as
`pre`/`suf`/`seq`.
-/

/-- The error values the Go code can produce: the two `errors.New("invalid
argument")` values of `parseEllipsesRange`, a `strconv.ParseUint` failure,
the `fmt.Errorf("incorrect range start %d cannot be bigger than end %d")`
order error, the package-level `errFormat` sentinel, and the value built by
`ErrInvalidEllipsesFormatFn(arg)`. -/
inductive GoErr where
  | invalidArgument : GoErr
  | parseUintErr : GoErr
  | rangeOrder (start stop : Nat) : GoErr
  | format : GoErr
  | invalidEllipsesFormat (arg : List Char) : GoErr
deriving DecidableEq, Repr

deriving instance DecidableEq for Except

/-- The character class `[0-9a-z]` of the regex
`(.*)({[0-9a-z]*\.\.\.[0-9a-z]*})(.*)`. -/
def isClassChar (c : Char) : Bool :=
  c.isDigit || c.isLower

/-- Go `strconv.ParseUint` digit decoding of one byte: `0-9`, `a-z` (value
10..35), `A-Z` (value 10..35); anything else is a syntax error. -/
def digitVal (c : Char) : Option Nat :=
  if c.isDigit then some (c.toNat - '0'.toNat)
  else if c.isLower then some (c.toNat - 'a'.toNat + 10)
  else if c.isUpper then some (c.toNat - 'A'.toNat + 10)
  else none

/-- A digit of the given base, as accepted by Go `strconv.ParseUint`. -/
def goDigit (base : Nat) (c : Char) : Option Nat :=
  match digitVal c with
  | some d => if d < base then some d else none
  | none => none

/-- The accumulation loop of Go `strconv.ParseUint`. -/
def parseUintLoop (base : Nat) : List Char → Nat → Option Nat
  | [], acc => some acc
  | c :: cs, acc =>
    match goDigit base c with
    | some d => parseUintLoop base cs (acc * base + d)
    | none => none

/-- Go `strconv.ParseUint(s, base, 64)`: rejects the empty string, any
non-digit of the base, and any value not representable in 64 bits (the
intermediate accumulator is monotone, so the final bound check is
equivalent to Go's per-step cutoff check). -/
def goParseUint (base : Nat) (s : List Char) : Option Nat :=
  if s.isEmpty then none
  else
    match parseUintLoop base s 0 with
    | some n => if n < 2 ^ 64 then some n else none
    | none => none

/-- Go `strings.Split(pattern, "...")`: split on the non-overlapping,
left-to-right occurrences of the three-dot separator. -/
def splitOnEllipses : List Char → List (List Char)
  | [] => [[]]
  | '.' :: '.' :: '.' :: rest => [] :: splitOnEllipses rest
  | c :: rest =>
    match splitOnEllipses rest with
    | [] => [[c]]
    | p :: ps => (c :: p) :: ps

/-- Go `strings.TrimPrefix(pattern, "{")`. -/
def trimPrefixBrace : List Char → List Char
  | '{' :: rest => rest
  | s => s

/-- Go `strings.TrimSuffix(pattern, "}")`. -/
def trimSuffixBrace (s : List Char) : List Char :=
  if s.getLast? = some '}' then s.dropLast else s

/-- The text of the range token after both braces are trimmed
(the two reassignments of `pattern` in `parseEllipsesRange`). -/
def rangeInner (pattern : List Char) : List Char :=
  trimSuffixBrace (trimPrefixBrace pattern)

/-- One boundary of a range: decimal parse first and, only when it fails,
a hexadecimal re-parse; the boolean records whether the hexadecimal branch
was taken (the `hexadecimal = true` assignments in `parseEllipsesRange`). -/
def parseBoundary (s : List Char) : Option (Nat × Bool) :=
  match goParseUint 10 s with
  | some v => some (v, false)
  | none =>
    match goParseUint 16 s with
    | some v => some (v, true)
    | none => none

/-- Everything `parseEllipsesRange` does before its emission loop: the two
`strings.Contains` guards, the brace trimming, the `strings.Split` on
`"..."` with its length-2 check, the decimal/hexadecimal parse of both
boundaries, and the `start > end` check.  On success it returns the two
boundary literals, the resolved `start` and `end`, and the `hexadecimal`
flag. -/
def parseRangeComponents (pattern : List Char) :
    Except GoErr (List Char × List Char × Nat × Nat × Bool) :=
  if pattern.contains '{' = false then .error .invalidArgument
  else if pattern.contains '}' = false then .error .invalidArgument
  else
    match splitOnEllipses (rangeInner pattern) with
    | [l, r] =>
      match parseBoundary l with
      | none => .error .parseUintErr
      | some (s, h1) =>
        match parseBoundary r with
        | none => .error .parseUintErr
        | some (e, h2) =>
          if e < s then .error (.rangeOrder s e)
          else .ok (l, r, s, e, h1 || h2)
    | _ => .error .invalidArgument

/-- Zero padding of a digit string to a requested width, as done by the Go
verb `%0<w>d` / `%0<w>x` (never truncates). -/
def zeroPad (w : Nat) (ds : List Char) : List Char :=
  List.replicate (w - ds.length) '0' ++ ds

/-- The padding condition of the emission loop:
`strings.HasPrefix(ellipsesRange[0], "0") && len(ellipsesRange[0]) > 1 ||
strings.HasPrefix(ellipsesRange[1], "0")`. -/
def padCond (l r : List Char) : Bool :=
  ((l.head? == some '0') && decide (1 < l.length)) || (r.head? == some '0')

/-- One label of the emission loop of `parseEllipsesRange`: padded to the
width of the right boundary's literal when `padCond` holds, minimal-width
otherwise; lowercase hexadecimal digits (`%x`) when the `hexadecimal` flag
is set, decimal digits (`%d`) otherwise. -/
def fmtLabel (l r : List Char) (hex : Bool) (i : Nat) : List Char :=
  if padCond l r then
    if hex then zeroPad r.length (Nat.toDigits 16 i)
    else zeroPad r.length (Nat.toDigits 10 i)
  else
    if hex then Nat.toDigits 16 i
    else Nat.toDigits 10 i

/-- `parseEllipsesRange`, with the emission loop rendered as a map over
`List.range' start (end - start + 1)`.  This is extensionally the Go loop
`for i := start; i <= end; i++` whenever `end < 2 ^ 64 - 1`; the loop as
written, with its `uint64` wraparound (and hence its non-termination at
`end = 2 ^ 64 - 1`), is modelled exactly by `parseEllipsesRangeFuel`
below. -/
def parseEllipsesRange (pattern : List Char) : Except GoErr (List (List Char)) :=
  match parseRangeComponents pattern with
  | .error e => .error e
  | .ok (l, r, s, e, hx) => .ok ((List.range' s (e - s + 1)).map (fmtLabel l r hx))

/-- The emission loop of `parseEllipsesRange` exactly as written in Go:
`i` is a `uint64`, so `i++` wraps modulo `2 ^ 64`.  `fuel` bounds the
number of iterations we are willing to observe; `none` means the loop has
not exited within `fuel` iterations. -/
def emitLoop (f : Nat → List Char) (e : Nat) : Nat → Nat → Option (List (List Char))
  | _, 0 => none
  | i, fuel + 1 =>
    if i ≤ e then
      match emitLoop f e ((i + 1) % 2 ^ 64) fuel with
      | some rest => some (f i :: rest)
      | none => none
    else some []

/-- `parseEllipsesRange` with the literal Go emission loop (`emitLoop`):
`none` exactly when the loop fails to terminate within `fuel` iterations. -/
def parseEllipsesRangeFuel (pattern : List Char) (fuel : Nat) :
    Option (Except GoErr (List (List Char))) :=
  match parseRangeComponents pattern with
  | .error e => some (.error e)
  | .ok (l, r, s, e, hx) => (emitLoop (fmtLabel l r hx) e s fuel).map .ok

/-- The Go `Pattern` struct.  Field names `Prefix`/`Suffix`/`Seq` are
rendered `pre`/`suf`/`seq`. -/
structure Pattern where
  pre : List Char
  suf : List Char
  seq : List (List Char)
deriving DecidableEq, Repr

/-- `Pattern.Expand`: decorates every label of `seq` with the pattern's own
prefix and suffix, with the Go switch over the four presence
combinations. -/
def Pattern.Expand (p : Pattern) : List (List Char) :=
  p.seq.map fun s =>
    if p.pre ≠ [] ∧ p.suf = [] then p.pre ++ s
    else if p.suf ≠ [] ∧ p.pre = [] then s ++ p.suf
    else if p.suf = [] ∧ p.pre = [] then s
    else p.pre ++ s ++ p.suf

/-- `argExpander`: recursively combines per-pattern label lists.
`argExpander []` models the Go panic: with zero label lists the code
unconditionally evaluates `labels[0]`, an out-of-bounds index on an empty
slice, so the result is `none`. -/
def argExpander : List (List (List Char)) → Option (List (List (List Char)))
  | [] => none
  | [l] => some (l.map fun v => [v])
  | l :: l2 :: rest =>
    match argExpander (l2 :: rest) with
    | none => none
    | some rs =>
      some (l.foldl (fun out lbl => out ++ rs.map (fun rlbls => rlbls ++ [lbl])) [])

/-- `ArgPattern`: a list of patterns. -/
abbrev ArgPattern := List Pattern

/-- `ArgPattern.Expand`: expands every contained pattern and combines the
label lists with `argExpander`. -/
def ArgPattern.Expand (a : ArgPattern) : Option (List (List (List Char))) :=
  argExpander (a.map Pattern.Expand)

/-- The maximal run of `[0-9a-z]` characters at the head of a string,
together with the rest (the greedy `[0-9a-z]*` of the regex; the class
contains neither `.` nor `}` nor `{`, so greediness is unambiguous). -/
def takeClassRun : List Char → List Char × List Char
  | [] => ([], [])
  | c :: cs =>
    if isClassChar c then
      let (run, rest) := takeClassRun cs
      (c :: run, rest)
    else ([], c :: cs)

/-- Matches the literal `...` of the regex at the head of a string. -/
def dropDots (s : List Char) : Option (List Char) :=
  match s with
  | a :: b :: c :: r => if a = '.' ∧ b = '.' ∧ c = '.' then some r else none
  | _ => none

/-- Matches the literal `}` of the regex at the head of a string. -/
def dropBrace (s : List Char) : Option (List Char) :=
  match s with
  | c :: r => if c = '}' then some r else none
  | [] => none

/-- Matches the bracketed sub-expression `{[0-9a-z]*\.\.\.[0-9a-z]*}` at
the head of a string, returning the matched span (braces included) and the
rest. -/
def matchSpan (s : List Char) : Option (List Char × List Char) :=
  match s with
  | [] => none
  | c :: rest =>
    if c = '{' then
      let (d1, r1) := takeClassRun rest
      match dropDots r1 with
      | some r2 =>
        let (d2, r3) := takeClassRun r2
        match dropBrace r3 with
        | some r4 => some (['{'] ++ d1 ++ ['.', '.', '.'] ++ d2 ++ ['}'], r4)
        | none => none
      | none => none
    else none

/-- The single-line capture core of the regex
`(.*)({[0-9a-z]*\.\.\.[0-9a-z]*})(.*)`: within a newline-free string the
greedy leading `(.*)` makes the captured span the one at the rightmost
position where a span matches, so the submatch triple is (text before the
rightmost span, the span itself, text after it); `none` when the line
contains no span. -/
def findSubmatchLine : List Char → Option (List Char × List Char × List Char)
  | [] => none
  | c :: cs =>
    match findSubmatchLine cs with
    | some (p, sp, suf) => some (c :: p, sp, suf)
    | none =>
      match matchSpan (c :: cs) with
      | some (sp, suf) => some ([], sp, suf)
      | none => none

/-- The line structure RE2's `.` respects: split on the newline character
(which `.` does not match when the `s` flag is off, as in
`regexpEllipses`). -/
def splitLinesNL : List Char → List (List Char)
  | [] => [[]]
  | '\n' :: rest => [] :: splitLinesNL rest
  | c :: rest =>
    match splitLinesNL rest with
    | [] => [[c]]
    | p :: ps => (c :: p) :: ps

/-- The first line (in order) whose capture succeeds. -/
def firstLineSubmatch : List (List Char) → Option (List Char × List Char × List Char)
  | [] => none
  | line :: rest =>
    match findSubmatchLine line with
    | some r => some r
    | none => firstLineSubmatch rest

/-- Go `regexpEllipses.FindStringSubmatch(arg)[1:]` for the regex
`(.*)({[0-9a-z]*\.\.\.[0-9a-z]*})(.*)`.  RE2's `.` does not match a
newline and a span literal contains none, so a match never crosses a
line: the leftmost match starts at the head of the first line that
contains a span, and within that line the greedy leading `(.*)` selects
the rightmost span, with the trailing `(.*)` running to the end of the
same line.  Text outside that line is dropped from the captures, exactly
as `FindStringSubmatch` drops text outside the match.  `none` when no
line contains a span. -/
def findSubmatch (s : List Char) : Option (List Char × List Char × List Char) :=
  firstLineSubmatch (splitLinesNL s)

/-- Go `regexpEllipses.MatchString(s)`: the regex has `.*` on both sides
(each may be empty), so it matches exactly when some line — equivalently,
the string — contains a span. -/
def matchString (s : List Char) : Bool :=
  (findSubmatch s).isSome

/-- A span literal `{l...r}` (the text the regex captures as group 2). -/
def mkSpan (l r : List Char) : List Char :=
  ['{'] ++ l ++ ['.', '.', '.'] ++ r ++ ['}']

/-- The `for patternFound { ... }` loop of `findPatterns` together with the
trailing `if len(parts) > 0` block.  `parts` is the current submatch triple
`(parts[0], parts[1], parts[2])`; `patterns` is the accumulator.  The fuel
only bounds the iteration count for structural recursion: every peel
strictly shrinks `parts[0]`, so `arg.length + 1` is always enough. -/
def findPatternsAux : Nat → List Char × List Char × List Char → List Pattern →
    List Pattern × Option GoErr
  | 0, _, patterns => (patterns, some .format)
  | fuel + 1, (p0, p1, p2), patterns =>
    if matchString p0 then
      match parseEllipsesRange p1 with
      | .error e => (patterns, some e)
      | .ok sq =>
        match findSubmatch p0 with
        | some parts => findPatternsAux fuel parts (patterns ++ [⟨[], p2, sq⟩])
        | none => (patterns ++ [⟨[], p2, sq⟩], none)
    else
      match parseEllipsesRange p1 with
      | .error e => (patterns, some e)
      | .ok sq => (patterns ++ [⟨p0, p2, sq⟩], none)

/-- `findPatterns(arg, regexpEllipses, parseEllipsesRange)`: returns the
(possibly partial) pattern list next to an optional error, exactly like the
Go `(ArgPattern, error)` pair. -/
def findPatterns (arg : List Char) : List Pattern × Option GoErr :=
  match findSubmatch arg with
  | none => ([], some .format)
  | some parts =>
    match findPatternsAux (arg.length + 1) parts [] with
    | (patterns, some e) => (patterns, some e)
    | (patterns, none) =>
      if patterns.any (fun p =>
          p.pre.contains '{' || p.pre.contains '}' ||
          p.suf.contains '{' || p.suf.contains '}')
      then ([], some (.invalidEllipsesFormat arg))
      else (patterns, none)

/-- `FindEllipsesPatterns(arg)`: relabels the `errFormat` sentinel as
`ErrInvalidEllipsesFormatFn(arg)` and passes everything else through
unchanged, pattern list included. -/
def FindEllipsesPatterns (arg : List Char) : List Pattern × Option GoErr :=
  match findPatterns arg with
  | (v, some .format) => (v, some (.invalidEllipsesFormat arg))
  | (v, e) => (v, e)

/-- `argExpander` never hits the out-of-bounds access when it is given at
least one label list: the recursion only ever descends to non-empty
suffixes. -/
theorem argExpander_cons_isSome (x : List (List Char)) (xs : List (List (List Char))) :
    (argExpander (x :: xs)).isSome = true := by
  induction xs generalizing x with
  | nil => simp [argExpander]
  | cons y ys ih =>
    obtain ⟨rs, hrs⟩ := Option.isSome_iff_exists.mp (ih y)
    simp [argExpander, hrs]

/-- C10: `ArgPattern.Expand` on an empty pattern list runs into the
out-of-bounds access `labels[0]` of `argExpander` (modelled as `none`),
while on every non-empty pattern list it returns a well-defined tuple
list. -/
theorem c10_expand_totality :
    ArgPattern.Expand ([] : ArgPattern) = none ∧
    ∀ (a : ArgPattern), a ≠ [] → (ArgPattern.Expand a).isSome = true := by
  refine ⟨rfl, ?_⟩
  intro a ha
  cases a with
  | nil => exact absurd rfl ha
  | cons p ps =>
    simpa [ArgPattern.Expand] using argExpander_cons_isSome p.Expand (ps.map Pattern.Expand)

/-- Witness for C10 at the one-pattern input `⟨"", "", ["1"]⟩`. -/
theorem c10_witness : (ArgPattern.Expand [⟨[], [], [['1']]⟩]).isSome = true :=
  c10_expand_totality.2 [⟨[], [], [['1']]⟩] (by decide)

/-- C1 counterexample: in `{a...10}` the right boundary parses as decimal
10 (not as hexadecimal 16), so the resolved sequence is the single label
`a`, not the seven labels `a..f, 10` the claim's hexadecimal re-parse of
the right boundary would produce. -/
theorem c1_counterexample :
    parseEllipsesRange (mkSpan ['a'] ['1', '0']) = .ok [['a']] ∧
    parseEllipsesRange (mkSpan ['a'] ['1', '0']) ≠
      .ok [['a'], ['b'], ['c'], ['d'], ['e'], ['f'], ['1', '0']] :=
  ⟨by decide, by decide⟩

/-- C2 counterexample: for `a{1...2}b{3...4}c` the first `Pattern` of the
result is the RIGHTMOST span's (`{3...4}`, with empty prefix and suffix
`c`), not the leftmost span's. -/
theorem c2_counterexample :
    FindEllipsesPatterns (['a'] ++ mkSpan ['1'] ['2'] ++ ['b'] ++ mkSpan ['3'] ['4'] ++ ['c']) =
      ([⟨[], ['c'], [['3'], ['4']]⟩, ⟨['a'], ['b'], [['1'], ['2']]⟩], none) := by
  decide

/-- C3 counterexample: `{1...10}` does NOT produce zero-padded labels
`01..10` (neither boundary has a leading zero, so no padding applies). -/
theorem c3_counterexample :
    parseEllipsesRange (mkSpan ['1'] ['1', '0']) ≠
      .ok [['0', '1'], ['0', '2'], ['0', '3'], ['0', '4'], ['0', '5'], ['0', '6'], ['0', '7'],
        ['0', '8'], ['0', '9'], ['1', '0']] := by
  decide

/-- C3 amended: `{1...10}` resolves to the unpadded labels `1..10`;
width-2 zero padding requires a boundary with a leading zero, as in
`{01...10}` which resolves to `01..10`. -/
theorem c3_padding_examples :
    parseEllipsesRange (mkSpan ['1'] ['1', '0']) =
      .ok [['1'], ['2'], ['3'], ['4'], ['5'], ['6'], ['7'], ['8'], ['9'], ['1', '0']] ∧
    parseEllipsesRange (mkSpan ['0', '1'] ['1', '0']) =
      .ok [['0', '1'], ['0', '2'], ['0', '3'], ['0', '4'], ['0', '5'], ['0', '6'], ['0', '7'],
        ['0', '8'], ['0', '9'], ['1', '0']] :=
  ⟨by decide, by decide⟩

/-- C4 counterexample: for `server{4...1}` the top-level entry point
surfaces the resolver's order error itself, not the uniform
`ErrInvalidEllipsesFormatFn` error carrying the input. -/
theorem c4_counterexample :
    FindEllipsesPatterns ("server".data ++ mkSpan ['4'] ['1']) =
      ([], some (.rangeOrder 4 1)) ∧
    (FindEllipsesPatterns ("server".data ++ mkSpan ['4'] ['1'])).2 ≠
      some (GoErr.invalidEllipsesFormat ("server".data ++ mkSpan ['4'] ['1'])) :=
  ⟨by decide, by decide⟩

/-- C5 counterexample: on `a{4...1}b{1...2}` the top-level entry point
fails (order error on the left span) yet returns the already-extracted
pattern of the right span next to the error: the pattern list is not
empty. -/
theorem c5_counterexample :
    FindEllipsesPatterns (['a'] ++ mkSpan ['4'] ['1'] ++ ['b'] ++ mkSpan ['1'] ['2']) =
      ([⟨[], [], [['1'], ['2']]⟩], some (.rangeOrder 4 1)) := by
  decide

/-- C9: `pool{1...2}-disk{1...2}` parses into exactly two patterns, and
expanding the resulting `ArgPattern` yields exactly the four tuples of the
Cartesian product `{1,2} × {1,2}`, each label decorated by its own
pattern's prefix and suffix, in the fixed order produced by
`argExpander`. -/
theorem c9_two_span_expand :
    FindEllipsesPatterns ("pool".data ++ mkSpan ['1'] ['2'] ++ "-disk".data ++ mkSpan ['1'] ['2']) =
      ([⟨[], [], [['1'], ['2']]⟩, ⟨"pool".data, "-disk".data, [['1'], ['2']]⟩], none) ∧
    ArgPattern.Expand
        [⟨[], [], [['1'], ['2']]⟩, ⟨"pool".data, "-disk".data, [['1'], ['2']]⟩] =
      some [["pool1-disk".data, ['1']], ["pool2-disk".data, ['1']],
        ["pool1-disk".data, ['2']], ["pool2-disk".data, ['2']]] ∧
    ["pool1-disk".data, ['1']] ∈ [["pool1-disk".data, ['1']], ["pool2-disk".data, ['1']],
        ["pool1-disk".data, ['2']], ["pool2-disk".data, ['2']]] ∧
    ["pool1-disk".data, ['2']] ∈ [["pool1-disk".data, ['1']], ["pool2-disk".data, ['1']],
        ["pool1-disk".data, ['2']], ["pool2-disk".data, ['2']]] ∧
    ["pool2-disk".data, ['1']] ∈ [["pool1-disk".data, ['1']], ["pool2-disk".data, ['1']],
        ["pool1-disk".data, ['2']], ["pool2-disk".data, ['2']]] ∧
    ["pool2-disk".data, ['2']] ∈ [["pool1-disk".data, ['1']], ["pool2-disk".data, ['1']],
        ["pool1-disk".data, ['2']], ["pool2-disk".data, ['2']]] ∧
    ([["pool1-disk".data, ['1']], ["pool2-disk".data, ['1']],
        ["pool1-disk".data, ['2']], ["pool2-disk".data, ['2']]]).length = 2 * 2 := by
  refine ⟨by decide, by decide, ?_, ?_, ?_, ?_, by decide⟩ <;> decide

/-- Go `strings.Split` on `"..."` emits the separator-free pieces: a piece
with no dot splits to itself alone. -/
theorem splitOnEllipses_dots (r : List Char) :
    splitOnEllipses ('.' :: '.' :: '.' :: r) = [] :: splitOnEllipses r := by
  rw [splitOnEllipses]

/-- Unfolding `splitOnEllipses` over a head character that is not a dot. -/
theorem splitOnEllipses_cons_ne (c : Char) (rest : List Char) (hc : c ≠ '.') :
    splitOnEllipses (c :: rest) =
      match splitOnEllipses rest with
      | [] => [[c]]
      | p :: ps => (c :: p) :: ps := by
  rw [splitOnEllipses.eq_def]
  split
  · rename_i heq; cases heq
  · rename_i heq
    injection heq with h1 _
    exact absurd h1 hc
  · rename_i heq
    injection heq with h1 h2
    subst h1; subst h2
    rfl

/-- A dot-free string splits to the single piece that is itself. -/
theorem splitOnEllipses_no_dot (s : List Char) (h : '.' ∉ s) : splitOnEllipses s = [s] := by
  induction s with
  | nil => rfl
  | cons c cs ih =>
    simp only [List.mem_cons, not_or] at h
    rw [splitOnEllipses_cons_ne c cs (fun hc => h.1 hc.symm), ih h.2]

/-- Splitting a string of the shape `l...rest` with a dot-free `l` peels
off `l` as the first piece. -/
theorem splitOnEllipses_append (l r : List Char) (hl : '.' ∉ l) :
    splitOnEllipses (l ++ '.' :: '.' :: '.' :: r) = l :: splitOnEllipses r := by
  induction l with
  | nil => simpa using splitOnEllipses_dots r
  | cons c cs ih =>
    simp only [List.mem_cons, not_or] at hl
    rw [List.cons_append, splitOnEllipses_cons_ne c _ (fun hc => hl.1 hc.symm), ih hl.2]

/-- A dot is a digit in no base. -/
theorem goDigit_dot (base : Nat) : goDigit base '.' = none := by
  simp [goDigit, digitVal]

/-- Every character of a string accepted by the `ParseUint` loop is a
digit of the base. -/
theorem parseUintLoop_mem (base : Nat) :
    ∀ (s : List Char) (acc v : Nat), parseUintLoop base s acc = some v →
      ∀ c ∈ s, (goDigit base c).isSome = true := by
  intro s
  induction s with
  | nil => simp
  | cons d ds ih =>
    intro acc v h c hc
    rw [parseUintLoop] at h
    cases hd : goDigit base d with
    | none => rw [hd] at h; cases h
    | some dv =>
      rw [hd] at h
      rcases List.mem_cons.mp hc with rfl | hmem
      · simp [hd]
      · exact ih _ _ h c hmem

/-- Every character of a string accepted by `goParseUint` is a digit of
the base. -/
theorem goParseUint_mem (base : Nat) (s : List Char) (v : Nat)
    (h : goParseUint base s = some v) : ∀ c ∈ s, (goDigit base c).isSome = true := by
  rw [goParseUint] at h
  split at h
  · cases h
  · cases hp : parseUintLoop base s 0 with
    | none => rw [hp] at h; cases h
    | some n => exact parseUintLoop_mem base s 0 n hp

/-- A string accepted by `goParseUint` contains no dot. -/
theorem goParseUint_no_dot (base : Nat) (s : List Char) (v : Nat)
    (h : goParseUint base s = some v) : '.' ∉ s := by
  intro hm
  have := goParseUint_mem base s v h '.' hm
  rw [goDigit_dot] at this
  cases this

/-- `TrimPrefix` with `"{"` drops a leading open brace. -/
theorem trimPrefixBrace_brace (x : List Char) : trimPrefixBrace ('{' :: x) = x := by
  rw [trimPrefixBrace]

/-- `TrimSuffix` with `"}"` drops a trailing close brace. -/
theorem trimSuffixBrace_concat (x : List Char) : trimSuffixBrace (x ++ ['}']) = x := by
  rw [trimSuffixBrace, List.getLast?_concat]
  simp

/-- Trimming the braces of a span literal `{l...r}` leaves `l...r`. -/
theorem rangeInner_mkSpan (l r : List Char) :
    rangeInner (mkSpan l r) = l ++ '.' :: '.' :: '.' :: r := by
  have h1 : mkSpan l r = '{' :: ((l ++ '.' :: '.' :: '.' :: r) ++ ['}']) := by simp [mkSpan]
  rw [rangeInner, h1, trimPrefixBrace_brace, trimSuffixBrace_concat]

/-- C1 amended: when the left boundary fails the decimal parse but parses
as hexadecimal and the right boundary is valid decimal, the range is
marked hexadecimal for label FORMATTING only; the right boundary's numeric
value is its successful decimal parse (no hexadecimal re-parse), so the
labels run from the hex value of the left literal to the decimal value of
the right literal, rendered as hex digits. -/
theorem c1_hex_flag_decimal_end (l r : List Char) (s e : Nat)
    (h10 : goParseUint 10 l = none) (h16 : goParseUint 16 l = some s)
    (hr10 : goParseUint 10 r = some e) (hse : s ≤ e) :
    parseEllipsesRange (mkSpan l r) =
      .ok ((List.range' s (e - s + 1)).map (fmtLabel l r true)) := by
  have hdl : '.' ∉ l := goParseUint_no_dot 16 l s h16
  have hdr : '.' ∉ r := goParseUint_no_dot 10 r e hr10
  have hsplit : splitOnEllipses (rangeInner (mkSpan l r)) = [l, r] := by
    rw [rangeInner_mkSpan, splitOnEllipses_append l _ hdl, splitOnEllipses_no_dot r hdr]
  have hob : (mkSpan l r).contains '{' = true := by simp [mkSpan]
  have hcb : (mkSpan l r).contains '}' = true := by simp [mkSpan]
  rw [parseEllipsesRange, parseRangeComponents, hob, hcb]
  simp [hsplit, parseBoundary, h10, h16, hr10, Nat.not_lt.mpr hse]

/-- Witness for C1's amended claim at `{a...10}`: start `a` (hex 10), end
10 from the decimal parse of `"10"`. -/
theorem c1_witness :
    parseEllipsesRange (mkSpan ['a'] ['1', '0']) =
      .ok ((List.range' 10 (10 - 10 + 1)).map (fmtLabel ['a'] ['1', '0'] true)) :=
  c1_hex_flag_decimal_end ['a'] ['1', '0'] 10 10 (by decide) (by decide) (by decide) (by decide)

/-- The greedy class run stops exactly at the first non-class character. -/
theorem takeClassRun_append (l : List Char) (c : Char) (rest : List Char)
    (hl : l.all isClassChar = true) (hc : isClassChar c = false) :
    takeClassRun (l ++ c :: rest) = (l, c :: rest) := by
  induction l with
  | nil => simp [takeClassRun, hc]
  | cons a l' ih =>
    simp only [List.all_cons, Bool.and_eq_true] at hl
    simp [takeClassRun, hl.1, ih hl.2]

/-- A class character is not a brace and not a dot. -/
theorem isClassChar_not_special :
    isClassChar '{' = false ∧ isClassChar '}' = false ∧ isClassChar '.' = false := by
  decide

/-- No open brace occurs in an all-class string. -/
theorem not_mem_of_all_class (l : List Char) (hl : l.all isClassChar = true) (c : Char)
    (hc : isClassChar c = false) : c ∉ l := by
  intro hm
  have := List.all_eq_true.mp hl c hm
  rw [hc] at this
  cases this

/-- The span matcher recognizes a `{l...r}` literal at the head of a
string whenever both boundary texts are within the class `[0-9a-z]`. -/
theorem matchSpan_mk (l r rest : List Char)
    (hl : l.all isClassChar = true) (hr : r.all isClassChar = true) :
    matchSpan (mkSpan l r ++ rest) = some (mkSpan l r, rest) := by
  have hshape : mkSpan l r ++ rest =
      '{' :: (l ++ '.' :: '.' :: '.' :: (r ++ '}' :: rest)) := by
    simp [mkSpan]
  have h1 := takeClassRun_append l '.' ('.' :: '.' :: (r ++ '}' :: rest)) hl
    isClassChar_not_special.2.2
  have h2 := takeClassRun_append r '}' rest hr isClassChar_not_special.2.1
  rw [hshape, matchSpan]
  simp [h1, h2, dropDots, dropBrace, mkSpan]

/-- A string without a `{` holds no span at its head. -/
theorem matchSpan_not_brace (c : Char) (cs : List Char) (hc : c ≠ '{') :
    matchSpan (c :: cs) = none := by
  simp [matchSpan, hc]

/-- A line without a `{` holds no span anywhere. -/
theorem findSubmatchLine_none (s : List Char) (h : '{' ∉ s) : findSubmatchLine s = none := by
  induction s with
  | nil => rfl
  | cons c cs ih =>
    simp only [List.mem_cons, not_or] at h
    rw [findSubmatchLine, ih h.2, matchSpan_not_brace c cs (fun hc => h.1 hc.symm)]

/-- The rightmost-match property of the greedy leading `(.*)` within a
line: a submatch of the right part stays the submatch of the whole, with
the left part prepended to the first capture. -/
theorem findSubmatchLine_append (x y p sp suf : List Char)
    (h : findSubmatchLine y = some (p, sp, suf)) :
    findSubmatchLine (x ++ y) = some (x ++ p, sp, suf) := by
  induction x with
  | nil => simpa using h
  | cons c x' ih =>
    rw [List.cons_append, findSubmatchLine, ih]
    rfl

/-- A line that is a span literal followed by brace-free text submatches
as (empty prefix, the span, the trailing text). -/
theorem findSubmatchLine_span (l r rest : List Char)
    (hl : l.all isClassChar = true) (hr : r.all isClassChar = true)
    (hrest : '{' ∉ rest) :
    findSubmatchLine (mkSpan l r ++ rest) = some ([], mkSpan l r, rest) := by
  have hshape : mkSpan l r ++ rest =
      '{' :: (l ++ '.' :: '.' :: '.' :: (r ++ '}' :: rest)) := by
    simp [mkSpan]
  have htail : findSubmatchLine (l ++ '.' :: '.' :: '.' :: (r ++ '}' :: rest)) = none := by
    apply findSubmatchLine_none
    simp only [List.mem_append, List.mem_cons, not_or]
    refine ⟨fun hm => ?_, by decide, by decide, by decide, fun hm => ?_, by decide, hrest⟩
    · exact not_mem_of_all_class l hl '{' isClassChar_not_special.1 hm
    · exact not_mem_of_all_class r hr '{' isClassChar_not_special.1 hm
  rw [hshape, findSubmatchLine, htail, ← hshape, matchSpan_mk l r rest hl hr]

/-- Unfolding `splitLinesNL` over a head character that is not a newline. -/
theorem splitLinesNL_cons_ne (c : Char) (rest : List Char) (hc : c ≠ '\n') :
    splitLinesNL (c :: rest) =
      match splitLinesNL rest with
      | [] => [[c]]
      | p :: ps => (c :: p) :: ps := by
  rw [splitLinesNL.eq_def]
  split
  · rename_i heq; cases heq
  · rename_i heq
    injection heq with h1 _
    exact absurd h1 hc
  · rename_i heq
    injection heq with h1 h2
    subst h1; subst h2
    rfl

/-- A newline-free string is a single line. -/
theorem splitLinesNL_no_nl (s : List Char) (h : '\n' ∉ s) : splitLinesNL s = [s] := by
  induction s with
  | nil => rfl
  | cons c cs ih =>
    simp only [List.mem_cons, not_or] at h
    rw [splitLinesNL_cons_ne c cs (fun hc => h.1 hc.symm), ih h.2]

/-- On a newline-free string the whole-string capture is the single-line
capture: the regex match cannot be cut short by a newline. -/
theorem findSubmatch_no_nl (s : List Char) (h : '\n' ∉ s) :
    findSubmatch s = findSubmatchLine s := by
  rw [findSubmatch, splitLinesNL_no_nl s h]
  cases hr : findSubmatchLine s with
  | none => simp [firstLineSubmatch, hr]
  | some r => simp [firstLineSubmatch, hr]

/-- A span literal contains no newline: it is braces, dots and class
characters only. -/
theorem nl_not_mem_mkSpan (l r : List Char)
    (hl : l.all isClassChar = true) (hr : r.all isClassChar = true) :
    '\n' ∉ mkSpan l r := by
  have h1 := not_mem_of_all_class l hl '\n' (by decide)
  have h2 := not_mem_of_all_class r hr '\n' (by decide)
  simp [mkSpan, List.mem_append, h1, h2]

/-- The control flow of `findPatterns` on a two-span input
`a{l1...r1}b{l2...r2}c` with brace-free, newline-free literal segments
(a newline would cut the regex match short, as the two newline theorems
above show): the RIGHTMOST span is parsed and appended first,
then the loop peels the left span.
The result is the right span's pattern followed by the left span's, or
the partial one-pattern list next to the error when the left span's range
token is invalid. -/
theorem findPatterns_two_span (a b c l1 r1 l2 r2 : List Char) (seq2 : List (List Char))
    (ha1 : '{' ∉ a) (ha2 : '}' ∉ a) (han : '\n' ∉ a)
    (hb1 : '{' ∉ b) (hb2 : '}' ∉ b) (hbn : '\n' ∉ b)
    (hc1 : '{' ∉ c) (hc2 : '}' ∉ c) (hcn : '\n' ∉ c)
    (hl1 : l1.all isClassChar = true) (hr1 : r1.all isClassChar = true)
    (hl2 : l2.all isClassChar = true) (hr2 : r2.all isClassChar = true)
    (hsp2 : parseEllipsesRange (mkSpan l2 r2) = .ok seq2) :
    findPatterns (a ++ mkSpan l1 r1 ++ b ++ mkSpan l2 r2 ++ c) =
      match parseEllipsesRange (mkSpan l1 r1) with
      | .ok seq1 => ([⟨[], c, seq2⟩, ⟨a, b, seq1⟩], none)
      | .error e => ([⟨[], c, seq2⟩], some e) := by
  have hnl1 : '\n' ∉ mkSpan l1 r1 := nl_not_mem_mkSpan l1 r1 hl1 hr1
  have hnl2 : '\n' ∉ mkSpan l2 r2 := nl_not_mem_mkSpan l2 r2 hl2 hr2
  have hargn : '\n' ∉ a ++ mkSpan l1 r1 ++ b ++ mkSpan l2 r2 ++ c := by
    simp [List.mem_append, han, hbn, hcn, hnl1, hnl2]
  have hleftn : '\n' ∉ a ++ mkSpan l1 r1 ++ b := by
    simp [List.mem_append, han, hbn, hnl1]
  have hy2 : findSubmatchLine (mkSpan l2 r2 ++ c) = some ([], mkSpan l2 r2, c) :=
    findSubmatchLine_span l2 r2 c hl2 hr2 hc1
  have hsub : findSubmatch (a ++ mkSpan l1 r1 ++ b ++ mkSpan l2 r2 ++ c) =
      some (a ++ mkSpan l1 r1 ++ b, mkSpan l2 r2, c) := by
    have h := findSubmatchLine_append (a ++ mkSpan l1 r1 ++ b) (mkSpan l2 r2 ++ c)
      [] (mkSpan l2 r2) c hy2
    rw [List.append_nil] at h
    rw [← List.append_assoc] at h
    rw [findSubmatch_no_nl _ hargn]
    exact h
  have hy1 : findSubmatchLine (mkSpan l1 r1 ++ b) = some ([], mkSpan l1 r1, b) :=
    findSubmatchLine_span l1 r1 b hl1 hr1 hb1
  have hsub1 : findSubmatch (a ++ mkSpan l1 r1 ++ b) = some (a, mkSpan l1 r1, b) := by
    have h := findSubmatchLine_append a (mkSpan l1 r1 ++ b) [] (mkSpan l1 r1) b hy1
    rw [List.append_nil] at h
    rw [← List.append_assoc] at h
    rw [findSubmatch_no_nl _ hleftn]
    exact h
  have hms1 : matchString (a ++ mkSpan l1 r1 ++ b) = true := by
    rw [matchString, hsub1]; rfl
  have hmsa : matchString a = false := by
    rw [matchString, findSubmatch_no_nl a han, findSubmatchLine_none a ha1]; rfl
  have hpos : 0 < (a ++ mkSpan l1 r1 ++ b ++ mkSpan l2 r2 ++ c).length := by
    simp [mkSpan]
  obtain ⟨M, hM⟩ : ∃ M, (a ++ mkSpan l1 r1 ++ b ++ mkSpan l2 r2 ++ c).length = M + 1 :=
    ⟨(a ++ mkSpan l1 r1 ++ b ++ mkSpan l2 r2 ++ c).length - 1,
      (Nat.succ_pred_eq_of_pos hpos).symm⟩
  rcases hp : parseEllipsesRange (mkSpan l1 r1) with e | seq1
  · simp only [findPatterns, hsub, hM, findPatternsAux, hms1, if_true, hsp2, hsub1,
      List.nil_append, hmsa, Bool.false_eq_true, if_false, hp]
  · simp only [findPatterns, hsub, hM, findPatternsAux, hms1, if_true, hsp2, hsub1,
      List.nil_append, hmsa, Bool.false_eq_true, if_false, hp]
    simp [ha1, ha2, hb1, hb2, hc1, hc2]

/-- RE2's dot does not match a newline: on `x\ny{1...2}b{3...4}c` the
leftmost match starts after the newline, so the captured left-span prefix
is `y` and the text `x\n` before it is dropped from the captures. -/
theorem findPatterns_newline_drops_text :
    findPatterns (['x', '\n', 'y'] ++ mkSpan ['1'] ['2'] ++ ['b'] ++ mkSpan ['3'] ['4'] ++ ['c']) =
      ([⟨[], ['c'], [['3'], ['4']]⟩, ⟨['y'], ['b'], [['1'], ['2']]⟩], none) := by
  decide

/-- RE2's dot does not match a newline: on `a{9...3}\n{1...2}z` the match
never crosses the newline, so only the left span is seen and the order
error is returned with NO partial pattern list. -/
theorem findPatterns_newline_blocks_right_span :
    FindEllipsesPatterns (['a'] ++ mkSpan ['9'] ['3'] ++ ['\n'] ++ mkSpan ['1'] ['2'] ++ ['z']) =
      ([], some (.rangeOrder 9 3)) := by
  decide

/-- C2 amended: for a two-span input with brace-free, newline-free
literal segments the `Pattern` entries of the result are in RIGHT-to-left
order of the spans' appearance: the rightmost span's pattern (empty
prefix, suffix `c`) comes first and the leftmost span's (prefix `a`,
suffix `b`) second.  Left-to-right order is restored only
later, inside the expansion tuples, by `argExpander` appending the head
list's label at the end. -/
theorem c2_rightmost_first (a b c l1 r1 l2 r2 : List Char) (seq1 seq2 : List (List Char))
    (ha1 : '{' ∉ a) (ha2 : '}' ∉ a) (han : '\n' ∉ a)
    (hb1 : '{' ∉ b) (hb2 : '}' ∉ b) (hbn : '\n' ∉ b)
    (hc1 : '{' ∉ c) (hc2 : '}' ∉ c) (hcn : '\n' ∉ c)
    (hl1 : l1.all isClassChar = true) (hr1 : r1.all isClassChar = true)
    (hl2 : l2.all isClassChar = true) (hr2 : r2.all isClassChar = true)
    (hsp1 : parseEllipsesRange (mkSpan l1 r1) = .ok seq1)
    (hsp2 : parseEllipsesRange (mkSpan l2 r2) = .ok seq2) :
    FindEllipsesPatterns (a ++ mkSpan l1 r1 ++ b ++ mkSpan l2 r2 ++ c) =
      ([⟨[], c, seq2⟩, ⟨a, b, seq1⟩], none) := by
  have h := findPatterns_two_span a b c l1 r1 l2 r2 seq2 ha1 ha2 han hb1 hb2 hbn
    hc1 hc2 hcn hl1 hr1 hl2 hr2 hsp2
  rw [hsp1] at h
  rw [FindEllipsesPatterns, h]

/-- Witness for C2's amended claim at `p{1...2}q{7...8}t`. -/
theorem c2_witness :
    FindEllipsesPatterns (['p'] ++ mkSpan ['1'] ['2'] ++ ['q'] ++ mkSpan ['7'] ['8'] ++ ['t']) =
      ([⟨[], ['t'], [['7'], ['8']]⟩, ⟨['p'], ['q'], [['1'], ['2']]⟩], none) :=
  c2_rightmost_first ['p'] ['q'] ['t'] ['1'] ['2'] ['7'] ['8'] [['1'], ['2']] [['7'], ['8']]
    (by decide) (by decide) (by decide) (by decide) (by decide) (by decide)
    (by decide) (by decide) (by decide) (by decide) (by decide) (by decide)
    (by decide) (by decide) (by decide)

/-- C5 amended: when, in a two-span input with brace-free, newline-free
literal segments, the left span's range token is invalid (with any
resolver error other than the `errFormat` sentinel) and the right span is
valid, `FindEllipsesPatterns` returns the PARTIALLY built one-pattern list
(the right span's pattern) next to the error — it forwards the extractor's
partial result instead of discarding it. -/
theorem c5_partial_result (a b c l1 r1 l2 r2 : List Char) (e1 : GoErr)
    (seq2 : List (List Char))
    (ha1 : '{' ∉ a) (ha2 : '}' ∉ a) (han : '\n' ∉ a)
    (hb1 : '{' ∉ b) (hb2 : '}' ∉ b) (hbn : '\n' ∉ b)
    (hc1 : '{' ∉ c) (hc2 : '}' ∉ c) (hcn : '\n' ∉ c)
    (hl1 : l1.all isClassChar = true) (hr1 : r1.all isClassChar = true)
    (hl2 : l2.all isClassChar = true) (hr2 : r2.all isClassChar = true)
    (hsp1 : parseEllipsesRange (mkSpan l1 r1) = .error e1) (hne : e1 ≠ GoErr.format)
    (hsp2 : parseEllipsesRange (mkSpan l2 r2) = .ok seq2) :
    FindEllipsesPatterns (a ++ mkSpan l1 r1 ++ b ++ mkSpan l2 r2 ++ c) =
      ([⟨[], c, seq2⟩], some e1) := by
  have h := findPatterns_two_span a b c l1 r1 l2 r2 seq2 ha1 ha2 han hb1 hb2 hbn
    hc1 hc2 hcn hl1 hr1 hl2 hr2 hsp2
  rw [hsp1] at h
  rw [FindEllipsesPatterns, h]
  cases e1
  case format => exact absurd rfl hne
  all_goals rfl

/-- Witness for C5's amended claim at `m{9...3}n{1...2}z`: one extracted
pattern is returned next to the order error of the left span. -/
theorem c5_witness :
    FindEllipsesPatterns (['m'] ++ mkSpan ['9'] ['3'] ++ ['n'] ++ mkSpan ['1'] ['2'] ++ ['z']) =
      ([⟨[], ['z'], [['1'], ['2']]⟩], some (.rangeOrder 9 3)) :=
  c5_partial_result ['m'] ['n'] ['z'] ['9'] ['3'] ['1'] ['2'] (.rangeOrder 9 3) [['1'], ['2']]
    (by decide) (by decide) (by decide) (by decide) (by decide) (by decide)
    (by decide) (by decide) (by decide) (by decide) (by decide) (by decide) (by decide)
    (by decide) (by decide) (by decide)

/-- C4 amended: the top-level entry point re-labels ONLY the `errFormat`
sentinel (no recognizable span) into the uniform
`ErrInvalidEllipsesFormatFn(arg)` error; every other failure — resolver
errors for invalid range tokens included — surfaces unchanged. -/
theorem c4_error_relabelling (arg : List Char) :
    (∀ ps, findPatterns arg = (ps, some GoErr.format) →
      FindEllipsesPatterns arg = (ps, some (.invalidEllipsesFormat arg))) ∧
    (∀ ps e, findPatterns arg = (ps, some e) → e ≠ GoErr.format →
      FindEllipsesPatterns arg = (ps, some e)) := by
  constructor
  · intro ps h
    rw [FindEllipsesPatterns, h]
  · intro ps e h hne
    rw [FindEllipsesPatterns, h]
    cases e
    case format => exact absurd rfl hne
    all_goals rfl

/-- Witness for C4's amended claim: an input with no span at all gets the
re-labelled uniform error. -/
theorem c4_witness :
    FindEllipsesPatterns ['q'] = ([], some (.invalidEllipsesFormat ['q'])) :=
  (c4_error_relabelling ['q']).1 [] (by decide)

/-- C7: for every successfully resolved range, the emitted labels are
zero-padded to the width of the right boundary's literal (decimal or
lowercase hex digits per the resolved base) exactly when the padding
condition holds — the left literal has a leading `0` and length above 1,
or the right literal begins with `0` — and are minimal-width digits
otherwise. -/
theorem c7_padding_policy (pattern l r : List Char) (s e : Nat) (hx : Bool)
    (h : parseRangeComponents pattern = .ok (l, r, s, e, hx)) :
    (padCond l r = true →
      parseEllipsesRange pattern =
        .ok ((List.range' s (e - s + 1)).map
          (fun i => zeroPad r.length (Nat.toDigits (if hx then 16 else 10) i)))) ∧
    (padCond l r = false →
      parseEllipsesRange pattern =
        .ok ((List.range' s (e - s + 1)).map
          (fun i => Nat.toDigits (if hx then 16 else 10) i))) := by
  constructor
  · intro hpad
    have hf : fmtLabel l r hx =
        fun i => zeroPad r.length (Nat.toDigits (if hx then 16 else 10) i) := by
      funext i
      simp only [fmtLabel, hpad, if_true]
      cases hx <;> simp
    rw [parseEllipsesRange]
    simp only [h]
    rw [hf]
  · intro hpad
    have hf : fmtLabel l r hx = fun i => Nat.toDigits (if hx then 16 else 10) i := by
      funext i
      simp only [fmtLabel, hpad]
      cases hx <;> simp
    rw [parseEllipsesRange]
    simp only [h]
    rw [hf]

/-- Witness for C7 at `{01...10}`: the left literal leads with `0`, so
the ten labels are zero-padded to width 2. -/
theorem c7_witness :
    parseEllipsesRange (mkSpan ['0', '1'] ['1', '0']) =
      .ok ((List.range' 1 (10 - 1 + 1)).map
        (fun i => zeroPad (['1', '0'].length) (Nat.toDigits (if false then 16 else 10) i))) :=
  (c7_padding_policy (mkSpan ['0', '1'] ['1', '0']) ['0', '1'] ['1', '0'] 1 10 false
    (by decide)).1 (by decide)

/-- Under the two brace guards, `parseRangeComponents` is the split of the
trimmed token followed by the boundary parses and the order check. -/
theorem parseRangeComponents_unfold (pattern : List Char)
    (hob : pattern.contains '{' = true) (hcb : pattern.contains '}' = true) :
    parseRangeComponents pattern =
      match splitOnEllipses (rangeInner pattern) with
      | [l, r] =>
        match parseBoundary l with
        | none => Except.error GoErr.parseUintErr
        | some (s, h1) =>
          match parseBoundary r with
          | none => Except.error GoErr.parseUintErr
          | some (e, h2) =>
            if e < s then Except.error (GoErr.rangeOrder s e)
            else Except.ok (l, r, s, e, h1 || h2)
      | _ => Except.error GoErr.invalidArgument := by
  rw [parseRangeComponents, hob, hcb]
  simp

/-- C8: for a token containing both braces, resolution fails exactly when
the trimmed token does not split on `...` into exactly two pieces, or a
boundary parses in neither decimal nor hexadecimal, or the resolved start
exceeds the resolved end; the start-exceeds-end failure is the order error
carrying both resolved boundary values, and the unparsable-boundary
failure is the parse error. -/
theorem c8_failure_conditions (pattern : List Char)
    (hob : pattern.contains '{' = true) (hcb : pattern.contains '}' = true) :
    ((∃ err, parseEllipsesRange pattern = .error err) ↔
      ((splitOnEllipses (rangeInner pattern)).length ≠ 2 ∨
        ∃ l r, splitOnEllipses (rangeInner pattern) = [l, r] ∧
          (parseBoundary l = none ∨ parseBoundary r = none ∨
            ∃ s h1 e h2, parseBoundary l = some (s, h1) ∧
              parseBoundary r = some (e, h2) ∧ e < s))) ∧
    (∀ l r s h1 e h2, splitOnEllipses (rangeInner pattern) = [l, r] →
      parseBoundary l = some (s, h1) → parseBoundary r = some (e, h2) → e < s →
      parseEllipsesRange pattern = .error (.rangeOrder s e)) ∧
    (∀ l r, splitOnEllipses (rangeInner pattern) = [l, r] →
      parseBoundary l = none ∨ parseBoundary r = none →
      parseEllipsesRange pattern = .error .parseUintErr) := by
  have hu := parseRangeComponents_unfold pattern hob hcb
  refine ⟨?_, ?_, ?_⟩
  · rcases hsp : splitOnEllipses (rangeInner pattern) with _ | ⟨l, _ | ⟨r, _ | ⟨x, xs⟩⟩⟩
    · have hper : parseEllipsesRange pattern = .error .invalidArgument := by
        rw [parseEllipsesRange, hu]
        simp only [hsp]
      exact iff_of_true ⟨_, hper⟩ (Or.inl (by simp))
    · have hper : parseEllipsesRange pattern = .error .invalidArgument := by
        rw [parseEllipsesRange, hu]
        simp only [hsp]
      exact iff_of_true ⟨_, hper⟩ (Or.inl (by simp))
    · rcases hbl : parseBoundary l with _ | ⟨s, h1⟩
      · have hper : parseEllipsesRange pattern = .error .parseUintErr := by
          rw [parseEllipsesRange, hu]
          simp only [hsp, hbl]
        exact iff_of_true ⟨_, hper⟩ (Or.inr ⟨l, r, rfl, Or.inl hbl⟩)
      · rcases hbr : parseBoundary r with _ | ⟨e, h2⟩
        · have hper : parseEllipsesRange pattern = .error .parseUintErr := by
            rw [parseEllipsesRange, hu]
            simp only [hsp, hbl, hbr]
          exact iff_of_true ⟨_, hper⟩ (Or.inr ⟨l, r, rfl, Or.inr (Or.inl hbr)⟩)
        · by_cases hlt : e < s
          · have hper : parseEllipsesRange pattern = .error (.rangeOrder s e) := by
              rw [parseEllipsesRange, hu]
              simp only [hsp, hbl, hbr]
              rw [if_pos hlt]
            exact iff_of_true ⟨_, hper⟩
              (Or.inr ⟨l, r, rfl, Or.inr (Or.inr ⟨s, h1, e, h2, hbl, hbr, hlt⟩)⟩)
          · have hper : parseEllipsesRange pattern =
                .ok ((List.range' s (e - s + 1)).map (fmtLabel l r (h1 || h2))) := by
              rw [parseEllipsesRange, hu]
              simp only [hsp, hbl, hbr]
              rw [if_neg hlt]
            apply iff_of_false
            · rintro ⟨err, herr⟩
              rw [hper] at herr
              simp at herr
            · rintro (hlen | ⟨l', r', hsp', hrest⟩)
              · simp at hlen
              · have hlr : l = l' ∧ r = r' := by simpa using hsp'
                obtain ⟨rfl, rfl⟩ := hlr
                rcases hrest with hbl' | hbr' | ⟨s', h1', e', h2', hbl', hbr', hlt'⟩
                · rw [hbl] at hbl'
                  cases hbl'
                · rw [hbr] at hbr'
                  cases hbr'
                · rw [hbl] at hbl'
                  rw [hbr] at hbr'
                  simp only [Option.some.injEq, Prod.mk.injEq] at hbl' hbr'
                  obtain ⟨rfl, rfl⟩ := hbl'
                  obtain ⟨rfl, rfl⟩ := hbr'
                  exact hlt hlt'
    · have hper : parseEllipsesRange pattern = .error .invalidArgument := by
        rw [parseEllipsesRange, hu]
        simp only [hsp]
      exact iff_of_true ⟨_, hper⟩ (Or.inl (by simp))
  · intro l r s h1 e h2 hsp hbl hbr hlt
    rw [parseEllipsesRange, hu]
    simp only [hsp, hbl, hbr]
    rw [if_pos hlt]
  · intro l r hsp hd
    rw [parseEllipsesRange, hu]
    simp only [hsp]
    rcases hd with hbl | hbr
    · simp [hbl]
    · rcases hbl' : parseBoundary l with _ | ⟨⟨s, h1⟩⟩
      · simp [hbl']
      · simp [hbl', hbr]

/-- Witness for C8 at `{4...1}`: start 4 exceeds end 1, so resolution
fails with the order error carrying both values. -/
theorem c8_witness :
    parseEllipsesRange (mkSpan ['4'] ['1']) = .error (.rangeOrder 4 1) :=
  (c8_failure_conditions (mkSpan ['4'] ['1']) (by decide) (by decide)).2.1
    ['4'] ['1'] 4 false 1 false (by decide) (by decide) (by decide) (by decide)

/-- The Go emission loop never exits when `end` is the maximal `uint64`
value: `i <= end` holds for every wrapped `uint64` value `i`, and `i++`
wraps from `2 ^ 64 - 1` back to 0. -/
theorem emitLoop_max_diverges (f : Nat → List Char) :
    ∀ (fuel i : Nat), i < 2 ^ 64 → emitLoop f (2 ^ 64 - 1) i fuel = none := by
  intro fuel
  induction fuel with
  | zero => intro i _; rfl
  | succ n ih =>
    intro i hi
    rw [emitLoop, if_pos (by omega), ih ((i + 1) % 2 ^ 64) (Nat.mod_lt _ (by positivity))]

/-- With `end` below the maximal `uint64` value the loop terminates and
produces exactly the ascending labels `f start, ..., f end` that the
`List.range'` rendering of `parseEllipsesRange` states. -/
theorem emitLoop_eq_range' (f : Nat → List Char) (e : Nat) (he : e < 2 ^ 64 - 1) :
    ∀ (fuel i : Nat), i ≤ e + 1 → e + 2 - i ≤ fuel →
      emitLoop f e i fuel = some ((List.range' i (e + 1 - i)).map f) := by
  intro fuel
  induction fuel with
  | zero => intro i hi h; omega
  | succ n ih =>
    intro i hi h
    by_cases hle : i ≤ e
    · rw [emitLoop, if_pos hle]
      have hmod : (i + 1) % 2 ^ 64 = i + 1 := Nat.mod_eq_of_lt (by omega)
      rw [hmod, ih (i + 1) (by omega) (by omega)]
      have h1 : e + 1 - i = (e - i) + 1 := by omega
      have h2 : e + 1 - (i + 1) = e - i := by omega
      rw [h1, h2, show List.range' i (e - i + 1) = i :: List.range' (i + 1) (e - i) from by
        simpa using List.range'_succ i (e - i) 1]
      rfl
    · rw [emitLoop, if_neg hle]
      have h0 : e + 1 - i = 0 := by omega
      rw [h0]
      rfl

/-- The fueled model agrees with the `List.range'` rendering whenever
`end < 2 ^ 64 - 1` (the only regime in which the Go loop terminates), so
`parseEllipsesRange` as defined above is the Go function everywhere the
Go function is defined. -/
theorem parseEllipsesRangeFuel_agrees (pattern l r : List Char) (s e : Nat) (hx : Bool)
    (h : parseRangeComponents pattern = .ok (l, r, s, e, hx)) (hse : s ≤ e)
    (he : e < 2 ^ 64 - 1) (fuel : Nat) (hf : e - s + 2 ≤ fuel) :
    parseEllipsesRangeFuel pattern fuel = some (parseEllipsesRange pattern) := by
  rw [parseEllipsesRangeFuel]
  simp only [h]
  rw [parseEllipsesRange]
  simp only [h]
  rw [emitLoop_eq_range' (fmtLabel l r hx) e he fuel s (by omega) (by omega),
    show e + 1 - s = e - s + 1 from by omega]
  rfl

/-- C6 (the code bug): on `{0...ffffffffffffffff}` — start 0, end the
maximal `uint64` value — the emission loop of `parseEllipsesRange` never
terminates: for every iteration bound `fuel` the literal Go loop is still
running.  The claim's promise of termination for maximal boundaries fails
on the code. -/
theorem c6_loop_divergence :
    ∀ (fuel : Nat),
      parseEllipsesRangeFuel (mkSpan ['0'] (List.replicate 16 'f')) fuel = none := by
  intro fuel
  have hcomp : parseRangeComponents (mkSpan ['0'] (List.replicate 16 'f')) =
      .ok (['0'], List.replicate 16 'f', 0, 2 ^ 64 - 1, true) := by decide
  rw [parseEllipsesRangeFuel]
  simp only [hcomp]
  rw [emitLoop_max_diverges _ fuel 0 (by positivity)]
  rfl
